import Mathlib

/-!
Verification of the SEO-audit core: a shallow embedding of
`analyzers/seo_scorer.py` (score aggregation, priority classification,
recommendation ranking, summary) and `analyzers/link_checker.py`
(probe-outcome classification, link-health scoring), with theorems
checking the specification's claims against the embedded code.

Modelling conventions:
- Python dicts with optional keys become structures with `Option` fields;
  the analyzer-results dict becomes an association list in insertion order.
- CPython's numeric arithmetic is IEEE binary64: `calculate_scoreF` and
  `calculate_overall_scoreF` carry out every `/`, `-`, `*`, `+`,
  `int(...)` and `round(...)` in an exact model of binary64 (`normPos`
  and the `f*` operations below), so they compute bit-for-bit what the
  interpreter computes. `calculate_score` and `calculate_overall_score`
  are the exact-rational readings of the same code (`int(x)` for
  `x ≥ 0` is `⌊x⌋`; Python's `round` is round-half-to-even,
  `pythonRound` below), kept for the properties that hold under either
  arithmetic; the float and rational readings differ by one at some
  inputs, which the theorems below exhibit.
- Code that can raise (`issue['type']` on a dict without a `'type'` key
  raises `KeyError`) returns `Except String _`.
- Network probing is modelled by an oracle `String → TransportResult`
  describing, per URL, the transport outcome the `requests` call would
  produce; an unanticipated in-task error is the `taskError` case, caught
  in `_check_links`' worker loop.
-/

set_option maxRecDepth 4000

/-- An issue dict as produced by the analyzers: each key may be absent.
The link checker emits issues keyed `severity`/`message`; the scorer reads
`type`/`message`. -/
structure Issue where
  type : Option String
  severity : Option String
  message : Option String
deriving DecidableEq, Repr

/-- An analyzer-result dict: `score`, `issues` and `recommendations` keys
may each be absent (`seo_scorer.py` guards or defaults every access). -/
structure AnalyzerResult where
  score : Option Int
  issues : Option (List Issue)
  recommendations : Option (List String)
deriving DecidableEq, Repr

/-- The `self.results` dict: category name to analyzer result, in
insertion order (Python dicts preserve insertion order). -/
abbrev Results := List (String × AnalyzerResult)

/-- Dict lookup (`results[category]` / `category in results`): first
entry with the given key, if any. -/
def dictGet (k : String) : Results → Option AnalyzerResult
  | [] => none
  | kv :: rest => if kv.1 = k then some kv.2 else dictGet k rest

/-- The fixed category weight table `SEOScorer.WEIGHTS`. -/
def WEIGHTS : List (String × ℚ) :=
  [("title", 15/100), ("meta_description", 12/100), ("url_structure", 10/100),
   ("headings", 13/100), ("content", 18/100), ("images", 10/100),
   ("links", 12/100), ("performance", 10/100)]

/-- Python's built-in `round` on an exact value: round half to even. -/
def pythonRound (x : ℚ) : ℤ :=
  let f := ⌊x⌋
  let r := x - f
  if r < 1/2 then f
  else if 1/2 < r then f + 1
  else if f % 2 = 0 then f else f + 1

/-- One iteration of the `calculate_overall_score` loop: when the
category is present in the results with a `score` key, add
`score * weight` to the first accumulator and `weight` to the second;
otherwise leave both unchanged. -/
def overallStep (results : Results) (acc : ℚ × ℚ) (cw : String × ℚ) : ℚ × ℚ :=
  match (dictGet cw.1 results).bind (·.score) with
  | some v => (acc.1 + (v : ℚ) * cw.2, acc.2 + cw.2)
  | none => acc

/-- Method `SEOScorer.calculate_overall_score`: fold over `WEIGHTS`, accumulating
`score * weight` and `weight` for each category present in the results
with a `score` key; return 0 when no weight accumulated, else the rounded
normalized ratio. -/
def calculate_overall_score (results : Results) : ℤ :=
  let acc := WEIGHTS.foldl (overallStep results) (0, 0)
  if acc.2 = 0 then 0 else pythonRound (acc.1 / acc.2)

/-- A priority bucket of `get_priority_issues`. -/
inductive Priority where
  | high
  | medium
  | low
deriving DecidableEq, Repr

/-- The `issue_with_category` dict built for each issue: category name,
`issue.get('type', 'info')` and `issue.get('message', '')`. -/
structure TaggedIssue where
  category : String
  type : String
  message : String
deriving DecidableEq, Repr

/-- The `priority_issues` dict of `get_priority_issues`: the three
buckets, each filled by appending. -/
structure Buckets where
  high : List TaggedIssue
  medium : List TaggedIssue
  low : List TaggedIssue
deriving DecidableEq, Repr

/-- The per-issue loop body of `get_priority_issues` over one category's
issue list: builds `issue_with_category`, then branches on `issue['type']`
(raising `KeyError` when the `type` key is absent) and the category score,
appending into the matching bucket. -/
def addIssues (category : String) (score : ℤ) :
    List Issue → Buckets → Except String Buckets
  | [], b => .ok b
  | i :: rest, b =>
    let iwc : TaggedIssue := ⟨category, i.type.getD "info", i.message.getD ""⟩
    match i.type with
    | none => .error "KeyError: type"
    | some t =>
      let b2 : Buckets :=
        if t = "critical" ∨ score < 40 then { b with high := b.high ++ [iwc] }
        else if t = "warning" ∨ score < 70 then { b with medium := b.medium ++ [iwc] }
        else { b with low := b.low ++ [iwc] }
      addIssues category score rest b2

/-- The outer loop of `get_priority_issues`: iterate the categories in
order, skipping entries without an `issues` key, using
`data.get('score', 100)` as the category score. -/
def foldCats : Results → Buckets → Except String Buckets
  | [], b => .ok b
  | cd :: rest, b =>
    match cd.2.issues with
    | none => foldCats rest b
    | some l =>
      match addIssues cd.1 (cd.2.score.getD 100) l b with
      | .ok b2 => foldCats rest b2
      | .error e => .error e

/-- Method `SEOScorer.get_priority_issues`. -/
def get_priority_issues (results : Results) : Except String Buckets :=
  foldCats results ⟨[], [], []⟩

/-- An entry of the list built by `get_all_recommendations`: category
name, the recommendation, and `data.get('score', 100)`. -/
structure RecEntry where
  category : String
  recommendation : String
  score : ℤ
deriving DecidableEq, Repr

/-- The flattening phase of `get_all_recommendations`: iterate categories
in order, skip entries without a `recommendations` key, append one entry
per recommendation with the defaulted category score attached. -/
def collectRecommendations : Results → List RecEntry
  | [] => []
  | cd :: rest =>
    (match cd.2.recommendations with
     | none => []
     | some recs => recs.map (fun r => ⟨cd.1, r, cd.2.score.getD 100⟩)) ++
    collectRecommendations rest

/-- Stable insertion of an element into a score-sorted list: the new
element goes after existing elements with a less-or-equal score, matching
the left-to-right stability of Python's `list.sort(key=...)`. -/
def insertRec (a : RecEntry) : List RecEntry → List RecEntry
  | [] => [a]
  | b :: l => if b.score ≤ a.score then b :: insertRec a l else a :: b :: l

/-- Python's stable `list.sort(key=lambda x: x['score'])`, modelled as a
left-to-right stable insertion sort. -/
def sortRecs (l : List RecEntry) : List RecEntry :=
  l.foldl (fun acc a => insertRec a acc) []

/-- Method `SEOScorer.get_all_recommendations`: flatten, then stable-sort by
ascending score. -/
def get_all_recommendations (results : Results) : List RecEntry :=
  sortRecs (collectRecommendations results)

/-- The summary dict of `SEOScorer.get_summary`. -/
structure Summary where
  overall_score : ℤ
  total_issues : ℕ
  high_priority : ℕ
  medium_priority : ℕ
  low_priority : ℕ
  categories_analyzed : ℕ
  category_scores : List (String × ℤ)
deriving DecidableEq, Repr

/-- Method `SEOScorer.get_summary`: calls `get_priority_issues` (so it raises
whenever that raises) and assembles the counts; note `category_scores`
uses `data.get('score', 0)`. -/
def get_summary (results : Results) : Except String Summary :=
  match get_priority_issues results with
  | .error e => .error e
  | .ok pi =>
    .ok ⟨calculate_overall_score results,
         pi.high.length + pi.medium.length + pi.low.length,
         pi.high.length, pi.medium.length, pi.low.length,
         results.length,
         results.map (fun cd => (cd.1, cd.2.score.getD 0))⟩

/-! ### Link checker (`analyzers/link_checker.py`) -/

/-- What the transport layer reports for one probed URL: a response with
a status code, a `requests` timeout, another `requests.RequestException`,
or an error the probe task itself raises that `_check_single_link` does
not anticipate (caught only by the worker loop in `_check_links`). -/
inductive TransportResult where
  | status (code : ℤ)
  | timeout
  | requestError
  | taskError
deriving DecidableEq, Repr

/-- The per-link result dict `{url, status, status_code}`. -/
structure CheckResult where
  url : String
  status : String
  status_code : ℤ
deriving DecidableEq, Repr

/-- Method `LinkChecker._check_single_link`: classify a received status code by
the code's threshold tests, fold `requests` exceptions into
`unreachable` with status code 0, and propagate anything else. -/
def check_single_link (probe : String → TransportResult) (url : String) :
    Except Unit CheckResult :=
  match probe url with
  | .status code =>
    if 200 ≤ code ∧ code < 300 then .ok ⟨url, "working", code⟩
    else if 300 ≤ code ∧ code < 400 then .ok ⟨url, "redirected", code⟩
    else .ok ⟨url, "broken", code⟩
  | .timeout => .ok ⟨url, "unreachable", 0⟩
  | .requestError => .ok ⟨url, "unreachable", 0⟩
  | .taskError => .error ()

/-- Method `LinkChecker._check_links`: one result per submitted link; a future
whose `result()` raises is folded into an `unreachable` entry for that
link instead of propagating. (Completion order is nondeterministic; the
list here is one linearization, which downstream reductions treat as a
multiset.) -/
def check_links (probe : String → TransportResult) (links : List String) :
    List CheckResult :=
  links.map (fun url =>
    match check_single_link probe url with
    | .ok r => r
    | .error _ => ⟨url, "unreachable", 0⟩)

/-- The default `max_links` cap of `LinkChecker.__init__`. -/
def max_links : ℕ := 50

/-- The link list probed by `LinkChecker.analyze`:
`list(set(raw_links))[:self.max_links]` — deduplicate, then truncate to
the cap. (Set enumeration order is modelled as first-occurrence order;
only the membership and the count are used downstream.) -/
def unique_links (raw_links : List String) (cap : ℕ) : List String :=
  raw_links.dedup.take cap

/-- Local `broken_count` inside `LinkChecker._calculate_score`: results whose
status is broken or unreachable. -/
def broken_count (results : List CheckResult) : ℕ :=
  (results.filter (fun r => r.status = "broken" ∨ r.status = "unreachable")).length

/-- Method `LinkChecker._calculate_score`: 100 for an empty result set or when
nothing is broken; otherwise `max(0, int((1 - ratio) * 100))`, with
`int(...)` modelled as the floor (the value is nonnegative). -/
def calculate_score (results : List CheckResult) : ℤ :=
  if results = [] then 100
  else if broken_count results = 0 then 100
  else
    max 0 ⌊(1 - (broken_count results : ℚ) / (results.length : ℚ)) * 100⌋

/-- The issues list `LinkChecker.analyze` appends to: a high-severity
issue (keyed `severity`, with no `type` key) stating the count of
broken-status results when there are any, and a low-severity issue when
more than three links are redirected; the messages interpolate the
counts as the source f-strings do. -/
def analyze_issues (results : List CheckResult) : List Issue :=
  (if (results.filter (fun r => r.status = "broken")).length ≠ 0 then
    [⟨none, some "high",
      some (toString (results.filter (fun r => r.status = "broken")).length ++
        " broken link(s) found on this page")⟩]
   else []) ++
  (if 3 < (results.filter (fun r => r.status = "redirected")).length then
    [⟨none, some "low",
      some (toString (results.filter (fun r => r.status = "redirected")).length ++
        " redirected link(s) - consider updating to direct URLs")⟩]
   else [])

/-! ### Binary64 arithmetic

CPython floats are IEEE binary64. A float is modelled as a mantissa and
exponent pair `(m, e)` with value `m * 2 ^ e`, normalized so that
`|m| ∈ [2^52, 2^53)` (or `m = 0`); the exponent is unbounded, which is
exact for every value this program computes (nothing near overflow or
subnormal range). Every operation forms the exact result and rounds it
to 53 bits, to nearest with ties to even, as the hardware does;
division carries a sticky remainder so its result is the correctly
rounded true quotient. -/

/-- Fuel-driven bit scan: `bitLenAux fuel n` is the binary length of
`n` whenever `n ≤ fuel` (structural in the fuel so the kernel can
evaluate it). -/
def bitLenAux : ℕ → ℕ → ℕ
  | 0, _ => 0
  | fuel + 1, n => if n = 0 then 0 else bitLenAux fuel (n / 2) + 1

/-- Binary length of a natural number: 0 for 0, else `⌊log2 n⌋ + 1`. -/
def bitLen (n : ℕ) : ℕ := bitLenAux n n

/-- A binary64 value: mantissa and exponent, value `m * 2 ^ e`. -/
abbrev F := ℤ × ℤ

/-- Round a nonnegative `m * 2 ^ e` to 53 significant bits, to nearest
with ties to even; `sticky` records that the true value is strictly
larger than `m * 2 ^ e` by less than one unit of `m`'s last place
(used by division). Small mantissas are scaled up so results are
normalized. -/
def normPos (m : ℕ) (e : ℤ) (sticky : Bool) : ℕ × ℤ :=
  if m = 0 then (0, 0)
  else
    let k := bitLen m - 1
    if k ≤ 52 then (m * 2 ^ (52 - k), e - ((52 - k : ℕ) : ℤ))
    else
      let d := k - 52
      let q := m / 2 ^ d
      let low := m % 2 ^ d
      let half := 2 ^ (d - 1)
      let up : Bool :=
        if half < low then true
        else if low < half then false
        else if sticky then true
        else q % 2 == 1
      let q2 := if up then q + 1 else q
      if q2 = 2 ^ 53 then (2 ^ 52, e + (d : ℤ) + 1) else (q2, e + (d : ℤ))

/-- Signed rounding of an exact `m * 2 ^ e` to binary64. -/
def normF (m e : ℤ) : F :=
  if m < 0 then
    let p := normPos (-m).toNat e false
    (-(p.1 : ℤ), p.2)
  else
    let p := normPos m.toNat e false
    ((p.1 : ℤ), p.2)

/-- Conversion of a Python int to float (exact below `2 ^ 53`). -/
def ofInt (n : ℤ) : F := normF n 0

/-- Float addition: exact dyadic sum, then one rounding. -/
def fadd (a b : F) : F :=
  let e := min a.2 b.2
  normF (a.1 * 2 ^ (a.2 - e).toNat + b.1 * 2 ^ (b.2 - e).toNat) e

/-- Float negation (exact). -/
def fneg (a : F) : F := (-a.1, a.2)

/-- Float subtraction. -/
def fsub (a b : F) : F := fadd a (fneg b)

/-- Float multiplication: exact product, then one rounding. -/
def fmul (a b : F) : F := normF (a.1 * b.1) (a.2 + b.2)

/-- Float division, correctly rounded: a 64-extra-bit integer quotient
plus a sticky remainder feeds one rounding. Division by a zero float
does not occur in the embedded code (guarded by the early returns). -/
def fdiv (a b : F) : F :=
  if a.1 = 0 then (0, 0)
  else if b.1 = 0 then (0, 0)
  else
    let q := a.1.natAbs * 2 ^ 64 / b.1.natAbs
    let r := a.1.natAbs * 2 ^ 64 % b.1.natAbs
    let p := normPos q (a.2 - b.2 - 64) (if r = 0 then false else true)
    if a.1 < 0 ↔ b.1 < 0 then ((p.1 : ℤ), p.2) else (-(p.1 : ℤ), p.2)

/-- Python `int(x)` on a float: truncation toward zero of the exact
value. -/
def ftrunc (f : F) : ℤ :=
  if 0 ≤ f.2 then f.1 * 2 ^ f.2.toNat
  else if 0 ≤ f.1 then ((f.1.toNat / 2 ^ (-f.2).toNat : ℕ) : ℤ)
  else -(((-f.1).toNat / 2 ^ (-f.2).toNat : ℕ) : ℤ)

/-- Python `round(x)` on a float: round half to even on the exact value
of the double. -/
def pyRoundF (f : F) : ℤ :=
  if 0 ≤ f.2 then f.1 * 2 ^ f.2.toNat
  else
    let D : ℤ := 2 ^ (-f.2).toNat
    let q := Int.ediv f.1 D
    let low := Int.emod f.1 D
    if 2 * low < D then q
    else if D < 2 * low then q + 1
    else if q % 2 = 0 then q else q + 1

/-- Method `LinkChecker._calculate_score` with the arithmetic carried
out in binary64 exactly as the interpreter does:
`max(0, int((1 - broken_count / total) * 100))` over floats. -/
def calculate_scoreF (results : List CheckResult) : ℤ :=
  if results = [] then 100
  else if broken_count results = 0 then 100
  else
    max 0 (ftrunc (fmul (fsub (ofInt 1)
      (fdiv (ofInt (broken_count results)) (ofInt results.length))) (ofInt 100)))

/-- The weight table as the interpreter holds it: each decimal literal
is the binary64 value nearest the written fraction, which is the
correctly rounded `fdiv` of the exact integers. -/
def WEIGHTSF : List (String × F) :=
  [("title", fdiv (ofInt 15) (ofInt 100)),
   ("meta_description", fdiv (ofInt 12) (ofInt 100)),
   ("url_structure", fdiv (ofInt 10) (ofInt 100)),
   ("headings", fdiv (ofInt 13) (ofInt 100)),
   ("content", fdiv (ofInt 18) (ofInt 100)),
   ("images", fdiv (ofInt 10) (ofInt 100)),
   ("links", fdiv (ofInt 12) (ofInt 100)),
   ("performance", fdiv (ofInt 10) (ofInt 100))]

/-- One iteration of the `calculate_overall_score` loop in binary64:
`total_score += score * weight` and `total_weight += weight` are float
operations. -/
def overallStepF (results : Results) (acc : F × F) (cw : String × F) : F × F :=
  match (dictGet cw.1 results).bind (·.score) with
  | some v => (fadd acc.1 (fmul (ofInt v) cw.2), fadd acc.2 cw.2)
  | none => acc

/-- Method `SEOScorer.calculate_overall_score` with the arithmetic
carried out in binary64 exactly as the interpreter does: accumulation
in weight-table order, the `total_weight == 0` test comparing the float
value with zero, and Python's `round` acting on the float quotient. -/
def calculate_overall_scoreF (results : Results) : ℤ :=
  let acc := WEIGHTSF.foldl (overallStepF results) (ofInt 0, ofInt 0)
  if acc.2.1 = 0 then 0 else pyRoundF (fdiv acc.1 acc.2)

/-- The weight-table entries the loop actually accumulates: categories
present in the results with a `score` key. -/
def presentWeightsF (results : Results) : List (String × F) :=
  WEIGHTSF.filter (fun cw => ((dictGet cw.1 results).bind (·.score)).isSome)

/-! ### Spec-side definitions

These follow the specification's words, to be compared against the
embedded code. -/

/-- The priority rule as the spec states it: "an issue tagged with a
critical severity marker, OR belonging to a category whose score is
below 40, is high priority. Otherwise, an issue tagged warning, OR
belonging to a category scoring below 70, is medium. Everything else is
low" (first match wins). -/
def specPriority (score : ℤ) (tag : String) : Priority :=
  if tag = "critical" ∨ score < 40 then .high
  else if tag = "warning" ∨ score < 70 then .medium
  else .low

/-- The classification table as the spec states it: "200–299 → working;
300–399 → redirected; any other received status → broken; no status
obtained (timeout, connection failure, or other transport exception) →
unreachable" with status code 0. -/
def specClassify (url : String) : TransportResult → CheckResult
  | .status code =>
    if 200 ≤ code ∧ code ≤ 299 then ⟨url, "working", code⟩
    else if 300 ≤ code ∧ code ≤ 399 then ⟨url, "redirected", code⟩
    else ⟨url, "broken", code⟩
  | _ => ⟨url, "unreachable", 0⟩

/-- The link-health score formula as the spec states it:
`round((1 - brokenRatio) * 100)`, clamped to `[0, 100]`. -/
def specRoundScore (results : List CheckResult) : ℤ :=
  min 100 (max 0
    (pythonRound ((1 - (broken_count results : ℚ) / (results.length : ℚ)) * 100)))

/-- Presence test the spec's aggregation formula quantifies over:
"categories that are actually present" in the mapping. -/
def isPresent (results : Results) (c : String) : Bool :=
  (dictGet c results).isSome

/-- The numerator of the spec's aggregation formula:
`Σ(score_i * weight_i)` over present weighted categories. -/
def specWeightedSum (results : Results) : ℚ :=
  (WEIGHTS.map (fun cw =>
    if isPresent results cw.1 then
      ((((dictGet cw.1 results).bind (·.score)).getD 0 : ℤ) : ℚ) * cw.2
    else 0)).sum

/-- The denominator of the spec's aggregation formula: `Σ(weight_i)` over
present weighted categories. -/
def specWeightTotal (results : Results) : ℚ :=
  (WEIGHTS.map (fun cw => if isPresent results cw.1 then cw.2 else 0)).sum

/-- The tagged issues of one category's issue list that the spec's rule
sends to a given bucket, in input order. -/
def taggedOf (category : String) (score : ℤ) (l : List Issue) (p : Priority) :
    List TaggedIssue :=
  l.filterMap (fun i =>
    match i.type with
    | some t =>
      if specPriority score t = p then some ⟨category, t, i.message.getD ""⟩
      else none
    | none => none)

/-- One bucket described by the spec's per-issue rule: collect, across
categories in order and issues in order, the tagged issues the rule sends
to the bucket, skipping categories without issues and defaulting an
absent category score to 100. -/
def specBucket (p : Priority) : Results → List TaggedIssue
  | [] => []
  | cd :: rest =>
    (match cd.2.issues with
     | none => []
     | some l => taggedOf cd.1 (cd.2.score.getD 100) l p) ++
    specBucket p rest

/-- The whole `{high, medium, low}` partition described by the spec. -/
def bucketsSpec (results : Results) : Buckets :=
  ⟨specBucket .high results, specBucket .medium results, specBucket .low results⟩

/-! ### State-threaded versions of the aggregation operations

`seo_scorer.py` is a class whose methods read `self.results`; to make the
frame property (no mutation of the received results) a statement rather
than a convention of the embedding, these versions thread the scorer
state through every loop iteration explicitly, mirroring the method
bodies line by line, and return the state they finish with. -/

/-- The scorer object: its only attribute is `self.results`. -/
structure SEOScorerState where
  results : Results
deriving DecidableEq, Repr

/-- The `calculate_overall_score` loop, threading the state through each
iteration: every iteration reads `self.results` and writes only the two
local accumulators. -/
def overallLoopS (l : List (String × ℚ)) (st : (ℚ × ℚ) × SEOScorerState) :
    (ℚ × ℚ) × SEOScorerState :=
  match l, st with
  | [], st => st
  | cw :: rest, (acc, s) =>
    match (dictGet cw.1 s.results).bind (·.score) with
    | some v => overallLoopS rest ((acc.1 + (v : ℚ) * cw.2, acc.2 + cw.2), s)
    | none => overallLoopS rest (acc, s)

/-- State-threaded `calculate_overall_score`. -/
def calculate_overall_scoreS (s : SEOScorerState) : ℤ × SEOScorerState :=
  let r := overallLoopS WEIGHTS ((0, 0), s)
  ((if r.1.2 = 0 then 0 else pythonRound (r.1.1 / r.1.2)), r.2)

/-- The `get_priority_issues` loop, threading the state: every iteration
reads one entry of `self.results` and writes only the local buckets (or
raises, leaving the state as it was). -/
def prioLoopS : Results → Buckets → SEOScorerState →
    Except String Buckets × SEOScorerState
  | [], b, s => (.ok b, s)
  | cd :: rest, b, s =>
    match cd.2.issues with
    | none => prioLoopS rest b s
    | some l =>
      match addIssues cd.1 (cd.2.score.getD 100) l b with
      | .ok b2 => prioLoopS rest b2 s
      | .error e => (.error e, s)

/-- State-threaded `get_priority_issues`. -/
def get_priority_issuesS (s : SEOScorerState) :
    Except String Buckets × SEOScorerState :=
  prioLoopS s.results ⟨[], [], []⟩ s

/-- The `get_all_recommendations` loop, threading the state: every
iteration reads one entry of `self.results` and appends to the local
list only. -/
def recLoopS : Results → List RecEntry → SEOScorerState →
    List RecEntry × SEOScorerState
  | [], acc, s => (acc, s)
  | cd :: rest, acc, s =>
    match cd.2.recommendations with
    | none => recLoopS rest acc s
    | some recs =>
      recLoopS rest (acc ++ recs.map (fun r => ⟨cd.1, r, cd.2.score.getD 100⟩)) s

/-- State-threaded `get_all_recommendations`: the final `sort` call
mutates the freshly built local list, not anything reachable from
`self.results`. -/
def get_all_recommendationsS (s : SEOScorerState) :
    List RecEntry × SEOScorerState :=
  let r := recLoopS s.results [] s
  (sortRecs r.1, r.2)

/-- State-threaded `get_summary`: calls `get_priority_issues`, then
`calculate_overall_score`, then reads `self.results` again for the
counts, threading the state through each step. -/
def get_summaryS (s : SEOScorerState) : Except String Summary × SEOScorerState :=
  match get_priority_issuesS s with
  | (.error e, s1) => (.error e, s1)
  | (.ok pi, s1) =>
    let r := calculate_overall_scoreS s1
    (.ok ⟨r.1,
          pi.high.length + pi.medium.length + pi.low.length,
          pi.high.length, pi.medium.length, pi.low.length,
          r.2.results.length,
          r.2.results.map (fun cd => (cd.1, cd.2.score.getD 0))⟩, r.2)

/-! ### Concrete inputs used by the theorems -/

/-- Outcome set with two working links and one broken link. -/
def exWWB : List CheckResult :=
  [⟨"a", "working", 200⟩, ⟨"b", "working", 200⟩, ⟨"c", "broken", 404⟩]

/-- The spec's end-to-end probe scenario: three links return 200, one
returns 404, one times out. -/
def ex5 : List CheckResult :=
  [⟨"a", "working", 200⟩, ⟨"b", "working", 200⟩, ⟨"c", "working", 200⟩,
   ⟨"d", "broken", 404⟩, ⟨"e", "unreachable", 0⟩]

/-- The spec's end-to-end aggregation scenario: only `title` (score 80)
and `content` (score 60) present. -/
def exTC : Results :=
  [("title", ⟨some 80, none, none⟩), ("content", ⟨some 60, none, none⟩)]

/-- The spec's ranking scenario: categories A(90), B(40), C(40), one
recommendation each, inserted in order A, B, C. -/
def exABC : Results :=
  [("A", ⟨some 90, none, some ["recA"]⟩),
   ("B", ⟨some 40, none, some ["recB"]⟩),
   ("C", ⟨some 40, none, some ["recC"]⟩)]

/-- A results mapping holding the link checker's own analysis of `ex5`:
category score 60 and the severity-tagged issue list it emits, exactly
what `app.py` stores under `results['broken_links']` before handing the
mapping to the scorer. -/
def exBrokenLinks : Results :=
  [("broken_links", ⟨some 60, some (analyze_issues ex5), none⟩)]

/-- Input exercising both particulars of the priority rule: a
critical-tagged issue in a category scoring 90 and an info-tagged issue
in a category scoring 35. -/
def exC4 : Results :=
  [("A", ⟨some 90, some [⟨some "critical", none, some "x"⟩], none⟩),
   ("B", ⟨some 35, some [⟨some "info", none, some "y"⟩], none⟩)]

/-- A one-category prefix used alongside a score-less entry. -/
def exScored : Results := [("title", ⟨some 80, none, none⟩)]

/-- A category entry whose dict has no `score` key but does carry one
typed issue and one recommendation. -/
def exNoScore : AnalyzerResult :=
  ⟨none, some [⟨some "info", none, some "m"⟩], some ["r"]⟩

/-- A mapping on which the exact formula and the float computation
round a half case differently: `title` scores 0, `headings` scores 42
(weighted mean exactly 19.5 in rationals, 19.499999999999996 in
binary64). -/
def exTH : Results :=
  [("title", ⟨some 0, none, none⟩), ("headings", ⟨some 42, none, none⟩)]

/-- Outcome set with one working and four broken links: the float
product is 19.999999999999996, one ulp short of the exact 20. -/
def ex5b : List CheckResult :=
  [⟨"a", "working", 200⟩, ⟨"b", "broken", 404⟩, ⟨"c", "broken", 404⟩,
   ⟨"d", "broken", 404⟩, ⟨"e", "broken", 404⟩]

/-! ## Lemmas and theorems -/

theorem dictGet_mem {k : String} {v : AnalyzerResult} :
    ∀ {l : Results}, dictGet k l = some v → (k, v) ∈ l := by
  intro l
  induction l with
  | nil => intro h; simp [dictGet] at h
  | cons kv rest ih =>
    obtain ⟨a, b⟩ := kv
    intro h
    rw [dictGet] at h
    by_cases hk : a = k
    · subst hk
      simp [dictGet] at h
      subst h
      exact List.mem_cons_self _ _
    · rw [if_neg hk] at h
      exact List.mem_cons_of_mem _ (ih h)

theorem dictGet_append_some {k : String} {v : AnalyzerResult} {l1 : Results}
    (h : dictGet k l1 = some v) (l2 : Results) :
    dictGet k (l1 ++ l2) = some v := by
  induction l1 with
  | nil => simp [dictGet] at h
  | cons kv rest ih =>
    rw [dictGet] at h
    rw [List.cons_append, dictGet]
    by_cases hk : kv.1 = k
    · rwa [if_pos hk] at h ⊢
    · rw [if_neg hk] at h ⊢
      exact ih h

theorem dictGet_append_none {k : String} {l1 : Results}
    (h : dictGet k l1 = none) (l2 : Results) :
    dictGet k (l1 ++ l2) = dictGet k l2 := by
  induction l1 with
  | nil => simp
  | cons kv rest ih =>
    rw [dictGet] at h
    rw [List.cons_append, dictGet]
    by_cases hk : kv.1 = k
    · rw [if_pos hk] at h; exact absurd h (by simp)
    · rw [if_neg hk] at h ⊢
      exact ih h

theorem dictGet_eq_none {k : String} {l : Results}
    (h : ∀ kv ∈ l, kv.1 ≠ k) : dictGet k l = none := by
  induction l with
  | nil => rfl
  | cons kv rest ih =>
    rw [dictGet, if_neg (h kv (List.mem_cons_self _ _))]
    exact ih fun x hx => h x (List.mem_cons_of_mem _ hx)

theorem dictGet_middle {k c : String} {data : AnalyzerResult} {l1 l2 : Results}
    (hk : k ≠ c) :
    dictGet k (l1 ++ (c, data) :: l2) = dictGet k (l1 ++ l2) := by
  cases h1 : dictGet k l1 with
  | some v => rw [dictGet_append_some h1, dictGet_append_some h1]
  | none =>
    rw [dictGet_append_none h1, dictGet_append_none h1, dictGet,
      if_neg (fun hh => hk hh.symm)]

theorem foldl_overallStep_congr {A B : Results} :
    ∀ (l : List (String × ℚ)),
      (∀ cw ∈ l, (dictGet cw.1 A).bind (·.score) = (dictGet cw.1 B).bind (·.score)) →
      ∀ acc, l.foldl (overallStep A) acc = l.foldl (overallStep B) acc := by
  intro l
  induction l with
  | nil => intro _ _; rfl
  | cons cw rest ih =>
    intro h acc
    rw [List.foldl_cons, List.foldl_cons]
    have hstep : overallStep A acc cw = overallStep B acc cw := by
      rw [overallStep, overallStep, h cw (List.mem_cons_self _ _)]
    rw [hstep]
    exact ih (fun x hx => h x (List.mem_cons_of_mem _ hx)) _

theorem calculate_overall_score_congr {A B : Results}
    (h : ∀ cw ∈ WEIGHTS,
      (dictGet cw.1 A).bind (·.score) = (dictGet cw.1 B).bind (·.score)) :
    calculate_overall_score A = calculate_overall_score B := by
  rw [calculate_overall_score, calculate_overall_score,
    foldl_overallStep_congr WEIGHTS h]

theorem foldl_overallStep_eq (results : Results) :
    ∀ (l : List (String × ℚ)) (a b : ℚ),
      l.foldl (overallStep results) (a, b) =
        (a + ((l.map (fun cw =>
            match (dictGet cw.1 results).bind (·.score) with
            | some v => (v : ℚ) * cw.2
            | none => 0)).sum),
         b + ((l.map (fun cw =>
            if ((dictGet cw.1 results).bind (·.score)).isSome then cw.2
            else 0)).sum)) := by
  intro l
  induction l with
  | nil => intro a b; simp
  | cons cw rest ih =>
    intro a b
    cases hd : (dictGet cw.1 results).bind (·.score) with
    | some v =>
      simp only [List.foldl_cons, overallStep, hd, List.map_cons,
        List.sum_cons, ih, Option.isSome_some, if_true]
      simp only [Prod.mk.injEq]
      constructor <;> ring
    | none =>
      simp only [List.foldl_cons, overallStep, hd, List.map_cons,
        List.sum_cons, ih, Option.isSome_none, if_false, Bool.false_eq_true]
      simp only [Prod.mk.injEq]
      constructor <;> ring

theorem addIssues_ok (c : String) (s : ℤ) :
    ∀ (l : List Issue) (b : Buckets), (∀ i ∈ l, i.type.isSome) →
      addIssues c s l b =
        .ok ⟨b.high ++ taggedOf c s l .high,
             b.medium ++ taggedOf c s l .medium,
             b.low ++ taggedOf c s l .low⟩ := by
  intro l
  induction l with
  | nil => intro b _; simp [addIssues, taggedOf]
  | cons i rest ih =>
    intro b h
    obtain ⟨t, ht⟩ := Option.isSome_iff_exists.mp (h i (List.mem_cons_self _ _))
    have htail : ∀ j ∈ rest, j.type.isSome :=
      fun j hj => h j (List.mem_cons_of_mem _ hj)
    by_cases h1 : t = "critical" ∨ s < 40
    · have hp : specPriority s t = .high := by rw [specPriority, if_pos h1]
      simp only [addIssues, ht, if_pos h1, ih _ htail]
      simp [taggedOf, ht, hp, List.append_assoc]
    · by_cases h2 : t = "warning" ∨ s < 70
      · have hp : specPriority s t = .medium := by
          rw [specPriority, if_neg h1, if_pos h2]
        simp only [addIssues, ht, if_neg h1, if_pos h2, ih _ htail]
        simp [taggedOf, ht, hp, List.append_assoc]
      · have hp : specPriority s t = .low := by
          rw [specPriority, if_neg h1, if_neg h2]
        simp only [addIssues, ht, if_neg h1, if_neg h2, ih _ htail]
        simp [taggedOf, ht, hp, List.append_assoc]

theorem foldCats_ok :
    ∀ (results : Results) (b : Buckets),
      (∀ cd ∈ results, ∀ i ∈ cd.2.issues.getD [], i.type.isSome) →
      foldCats results b =
        .ok ⟨b.high ++ specBucket .high results,
             b.medium ++ specBucket .medium results,
             b.low ++ specBucket .low results⟩ := by
  intro results
  induction results with
  | nil => intro b _; simp [foldCats, specBucket]
  | cons cd rest ih =>
    intro b h
    have htail : ∀ x ∈ rest, ∀ i ∈ x.2.issues.getD [], i.type.isSome :=
      fun x hx => h x (List.mem_cons_of_mem _ hx)
    cases hi : cd.2.issues with
    | none =>
      simp only [foldCats, hi, ih _ htail]
      simp [specBucket, hi]
    | some l =>
      have htyped : ∀ i ∈ l, i.type.isSome := by
        have := h cd (List.mem_cons_self _ _)
        rwa [hi, Option.getD_some] at this
      simp only [foldCats, hi, addIssues_ok cd.1 (cd.2.score.getD 100) l b htyped,
        ih _ htail]
      simp [specBucket, hi, List.append_assoc]

theorem get_priority_issues_ok (results : Results)
    (h : ∀ cd ∈ results, ∀ i ∈ cd.2.issues.getD [], i.type.isSome) :
    get_priority_issues results = .ok (bucketsSpec results) := by
  rw [get_priority_issues, foldCats_ok results _ h]
  simp [bucketsSpec]

theorem insertRec_perm (a : RecEntry) : ∀ l, (insertRec a l).Perm (a :: l) := by
  intro l
  induction l with
  | nil => exact List.Perm.refl _
  | cons b t ih =>
    rw [insertRec]
    by_cases hb : b.score ≤ a.score
    · rw [if_pos hb]
      exact (ih.cons b).trans (List.Perm.swap a b t)
    · rw [if_neg hb]

theorem insertRec_sorted (a : RecEntry) :
    ∀ {l}, l.Pairwise (fun x y => x.score ≤ y.score) →
      (insertRec a l).Pairwise (fun x y => x.score ≤ y.score) := by
  intro l
  induction l with
  | nil => intro _; simp [insertRec]
  | cons b t ih =>
    intro h
    rw [List.pairwise_cons] at h
    obtain ⟨hb, ht⟩ := h
    rw [insertRec]
    by_cases hba : b.score ≤ a.score
    · rw [if_pos hba, List.pairwise_cons]
      refine ⟨?_, ih ht⟩
      intro x hx
      rcases List.mem_cons.mp ((insertRec_perm a t).mem_iff.mp hx) with rfl | hxt
      · exact hba
      · exact hb x hxt
    · rw [if_neg hba]
      push_neg at hba
      rw [List.pairwise_cons]
      refine ⟨?_, List.pairwise_cons.mpr ⟨hb, ht⟩⟩
      intro x hx
      rcases List.mem_cons.mp hx with rfl | hxt
      · exact le_of_lt hba
      · exact le_trans (le_of_lt hba) (hb x hxt)

theorem insertRec_filter_neg (a : RecEntry) (s : ℤ)
    (ha : (a.score == s) = false) :
    ∀ l, (insertRec a l).filter (fun e => e.score == s) =
      l.filter (fun e => e.score == s) := by
  intro l
  induction l with
  | nil => simp [insertRec, ha]
  | cons b t ih =>
    rw [insertRec]
    by_cases hb : b.score ≤ a.score
    · rw [if_pos hb]
      simp [List.filter_cons, ih]
    · rw [if_neg hb]
      simp [List.filter_cons, ha]

theorem insertRec_filter_pos (a : RecEntry) (s : ℤ)
    (ha : (a.score == s) = true) :
    ∀ {l}, l.Pairwise (fun x y => x.score ≤ y.score) →
      (insertRec a l).filter (fun e => e.score == s) =
        l.filter (fun e => e.score == s) ++ [a] := by
  intro l
  induction l with
  | nil => intro _; simp [insertRec, ha]
  | cons b t ih =>
    intro h
    rw [List.pairwise_cons] at h
    obtain ⟨hb, ht⟩ := h
    rw [insertRec]
    by_cases hba : b.score ≤ a.score
    · rw [if_pos hba]
      simp only [List.filter_cons, ih ht]
      by_cases hbs : (b.score == s) = true <;> simp [hbs]
    · rw [if_neg hba]
      push_neg at hba
      have hs : a.score = s := by simpa using ha
      have hnil : (b :: t).filter (fun e => e.score == s) = [] := by
        rw [List.filter_eq_nil_iff]
        intro x hx
        have hbx : b.score ≤ x.score := by
          rcases List.mem_cons.mp hx with rfl | hxt
          · exact le_refl _
          · exact hb x hxt
        have hlt : s < x.score := lt_of_lt_of_le (hs ▸ hba) hbx
        simp only [beq_iff_eq]
        omega
      simp [List.filter_cons, ha, hnil]

theorem sortLoop_perm :
    ∀ (l acc : List RecEntry),
      (l.foldl (fun acc a => insertRec a acc) acc).Perm (acc ++ l) := by
  intro l
  induction l with
  | nil => intro acc; simp
  | cons a t ih =>
    intro acc
    rw [List.foldl_cons]
    refine (ih (insertRec a acc)).trans ?_
    refine ((insertRec_perm a acc).append_right t).trans ?_
    exact (List.perm_middle).symm

theorem sortLoop_sorted :
    ∀ (l acc : List RecEntry),
      acc.Pairwise (fun x y => x.score ≤ y.score) →
      (l.foldl (fun acc a => insertRec a acc) acc).Pairwise
        (fun x y => x.score ≤ y.score) := by
  intro l
  induction l with
  | nil => intro acc h; exact h
  | cons a t ih =>
    intro acc h
    rw [List.foldl_cons]
    exact ih _ (insertRec_sorted a h)

theorem sortLoop_filter (s : ℤ) :
    ∀ (l acc : List RecEntry),
      acc.Pairwise (fun x y => x.score ≤ y.score) →
      (l.foldl (fun acc a => insertRec a acc) acc).filter (fun e => e.score == s) =
        acc.filter (fun e => e.score == s) ++ l.filter (fun e => e.score == s) := by
  intro l
  induction l with
  | nil => intro acc _; simp
  | cons a t ih =>
    intro acc h
    rw [List.foldl_cons, ih _ (insertRec_sorted a h)]
    by_cases ha : (a.score == s) = true
    · rw [insertRec_filter_pos a s ha h]
      simp [List.filter_cons, ha, List.append_assoc]
    · rw [insertRec_filter_neg a s (by simpa using ha)]
      simp [List.filter_cons, ha]

theorem mem_collectRecommendations {e : RecEntry} :
    ∀ {results : Results}, e ∈ collectRecommendations results ↔
      ∃ cd ∈ results, ∃ r ∈ cd.2.recommendations.getD [],
        e = ⟨cd.1, r, cd.2.score.getD 100⟩ := by
  intro results
  induction results with
  | nil => simp [collectRecommendations]
  | cons cd rest ih =>
    cases hr : cd.2.recommendations with
    | none =>
      simp only [collectRecommendations, hr, List.nil_append, ih, List.mem_cons]
      constructor
      · rintro ⟨x, hx, r, hrr, he⟩
        exact ⟨x, Or.inr hx, r, hrr, he⟩
      · rintro ⟨x, hx | hx, r, hrr, he⟩
        · subst hx; rw [hr] at hrr; simp at hrr
        · exact ⟨x, hx, r, hrr, he⟩
    | some recs =>
      simp only [collectRecommendations, hr, List.mem_append, List.mem_map, ih,
        List.mem_cons]
      constructor
      · rintro (⟨r, hrr, he⟩ | ⟨x, hx, r, hrr, he⟩)
        · exact ⟨cd, Or.inl rfl, r, by rw [hr]; simpa using hrr, he.symm⟩
        · exact ⟨x, Or.inr hx, r, hrr, he⟩
      · rintro ⟨x, hx | hx, r, hrr, he⟩
        · subst hx
          rw [hr] at hrr
          exact Or.inl ⟨r, by simpa using hrr, he.symm⟩
        · exact Or.inr ⟨x, hx, r, hrr, he⟩

theorem specWeightedSum_eq {results : Results}
    (h : ∀ cd ∈ results, cd.2.score.isSome) :
    (WEIGHTS.map (fun cw =>
      match (dictGet cw.1 results).bind (·.score) with
      | some v => (v : ℚ) * cw.2
      | none => 0)).sum = specWeightedSum results := by
  rw [specWeightedSum]
  congr 1
  apply List.map_congr_left
  intro cw _
  cases hd : dictGet cw.1 results with
  | none => simp [isPresent, hd]
  | some r =>
    obtain ⟨s, hs⟩ := Option.isSome_iff_exists.mp (h _ (dictGet_mem hd))
    have hs2 : r.score = some s := hs
    simp [isPresent, hd, hs2]

theorem specWeightTotal_eq {results : Results}
    (h : ∀ cd ∈ results, cd.2.score.isSome) :
    (WEIGHTS.map (fun cw =>
      if ((dictGet cw.1 results).bind (·.score)).isSome then cw.2
      else 0)).sum = specWeightTotal results := by
  rw [specWeightTotal]
  congr 1
  apply List.map_congr_left
  intro cw _
  cases hd : dictGet cw.1 results with
  | none => simp [isPresent, hd]
  | some r =>
    obtain ⟨s, hs⟩ := Option.isSome_iff_exists.mp (h _ (dictGet_mem hd))
    have hs2 : r.score = some s := hs
    simp [isPresent, hd, hs2]

/-- C1 (code bug): the link checker tags its issues under the `severity`
key (shown here on the spec's five-link scenario, which scores 60 and
yields one high-severity issue), yet classifying exactly that result —
which `app.py` stores in the same mapping handed to the scorer — raises
`KeyError` at `issue['type']` in `get_priority_issues`, and therefore in
`get_summary` too, instead of returning a partition. -/
theorem C1_severity_tagged_issue_raises :
    analyze_issues ex5 =
      [⟨none, some "high", some "1 broken link(s) found on this page"⟩]
    ∧ calculate_score ex5 = 60
    ∧ get_priority_issues exBrokenLinks = .error "KeyError: type"
    ∧ get_summary exBrokenLinks = .error "KeyError: type" := by
  refine ⟨by decide, ?_, rfl, rfl⟩
  rw [calculate_score, if_neg (by decide : ¬ ex5 = []),
    if_neg (by decide : ¬ broken_count ex5 = 0),
    (by decide : broken_count ex5 = 2), (by decide : ex5.length = 5)]
  norm_num

/-- C4: when every issue carries a `type` tag, `get_priority_issues`
returns exactly the partition described by the spec's first-match-wins
rule; in particular a critical-tagged issue is high for every category
score, an issue in a category scoring 35 is high whatever its tag, and
on the two-category example both the critical issue (category score 90)
and the info issue (category score 35) land in the high bucket. -/
theorem C4_priority_first_match (results : Results)
    (h : ∀ cd ∈ results, ∀ i ∈ cd.2.issues.getD [], i.type.isSome) :
    get_priority_issues results = .ok (bucketsSpec results)
    ∧ (∀ s : ℤ, specPriority s "critical" = .high)
    ∧ (∀ t : String, specPriority 35 t = .high)
    ∧ get_priority_issues exC4 =
        .ok ⟨[⟨"A", "critical", "x"⟩, ⟨"B", "info", "y"⟩], [], []⟩ := by
  refine ⟨get_priority_issues_ok results h, ?_, ?_, rfl⟩
  · intro s; rw [specPriority, if_pos (Or.inl rfl)]
  · intro t; rw [specPriority, if_pos (Or.inr (by norm_num))]

/-- Witness for C4: the all-issues-tagged hypothesis holds at the
two-category example and the conclusion follows there. -/
theorem C4_priority_first_match_witness :
    (∀ cd ∈ exC4, ∀ i ∈ cd.2.issues.getD [], i.type.isSome)
    ∧ (get_priority_issues exC4 = .ok (bucketsSpec exC4)
      ∧ (∀ s : ℤ, specPriority s "critical" = .high)
      ∧ (∀ t : String, specPriority 35 t = .high)
      ∧ get_priority_issues exC4 =
          .ok ⟨[⟨"A", "critical", "x"⟩, ⟨"B", "info", "y"⟩], [], []⟩) :=
  ⟨by decide, C4_priority_first_match exC4 (by decide)⟩

/-- C7: `get_all_recommendations` returns a permutation of the flattened
score-attached entries, sorted ascending by score, and the sort is
stable (for every score value, its entries keep their input relative
order); on the spec's A(90), B(40), C(40) scenario the output is B's,
then C's, then A's recommendation. -/
theorem C7_recommendation_ranking (results : Results) :
    (get_all_recommendations results).Perm (collectRecommendations results)
    ∧ (get_all_recommendations results).Pairwise (fun a b => a.score ≤ b.score)
    ∧ (∀ s : ℤ, (get_all_recommendations results).filter (fun e => e.score == s) =
        (collectRecommendations results).filter (fun e => e.score == s))
    ∧ get_all_recommendations exABC =
        [⟨"B", "recB", 40⟩, ⟨"C", "recC", 40⟩, ⟨"A", "recA", 90⟩] := by
  refine ⟨?_, ?_, ?_, by decide⟩
  · have h := sortLoop_perm (collectRecommendations results) []
    simpa [get_all_recommendations, sortRecs] using h
  · exact sortLoop_sorted _ _ List.Pairwise.nil
  · intro s
    have h := sortLoop_filter s (collectRecommendations results) [] List.Pairwise.nil
    simpa [get_all_recommendations, sortRecs] using h

/-- C6: every probed target is classified exactly as the spec's table
says — a received status in 200–299 is working, 300–399 redirected, any
other received status broken, and every way of obtaining no status
(timeout, connection failure, or an error the probe task raises) is
unreachable with status code 0 — and `_check_links` returns a plain
result per link, never propagating a transport failure. -/
theorem C6_outcome_classification (probe : String → TransportResult)
    (links : List String) :
    check_links probe links =
      links.map (fun url => specClassify url (probe url)) := by
  rw [check_links]
  apply List.map_congr_left
  intro url _
  cases hp : probe url with
  | status c =>
    by_cases h1 : 200 ≤ c ∧ c < 300
    · simp [check_single_link, hp, specClassify, if_pos h1,
        if_pos (show 200 ≤ c ∧ c ≤ 299 by omega)]
    · by_cases h2 : 300 ≤ c ∧ c < 400
      · have h1' : ¬(200 ≤ c ∧ c ≤ 299) := by omega
        simp [check_single_link, hp, specClassify, if_neg h1, if_neg h1',
          if_pos h2, if_pos (show 300 ≤ c ∧ c ≤ 399 by omega)]
      · have h1' : ¬(200 ≤ c ∧ c ≤ 299) := by omega
        have h2' : ¬(300 ≤ c ∧ c ≤ 399) := by omega
        simp [check_single_link, hp, specClassify, if_neg h1, if_neg h1',
          if_neg h2, if_neg h2']
  | timeout => simp [check_single_link, hp, specClassify]
  | requestError => simp [check_single_link, hp, specClassify]
  | taskError => simp [check_single_link, hp, specClassify]

/-- C5: probing the deduplicated-then-truncated target list yields
exactly one outcome per probed target in order (so no duplicates and no
omissions, whatever the probe oracle does — including raising an
unanticipated in-task error), and the number of outcomes is
`min(|unique targets|, cap)`. -/
theorem C5_one_outcome_per_target (probe : String → TransportResult)
    (raw_links : List String) (cap : ℕ) :
    ((check_links probe (unique_links raw_links cap)).map (·.url) =
      unique_links raw_links cap)
    ∧ (check_links probe (unique_links raw_links cap)).length =
        min raw_links.dedup.length cap
    ∧ ((check_links probe (unique_links raw_links cap)).map (·.url)).Nodup := by
  have hurl : ∀ url : String,
      ((match check_single_link probe url with
        | .ok r => r
        | .error _ => ⟨url, "unreachable", 0⟩) : CheckResult).url = url := by
    intro url
    cases hp : probe url with
    | status c => simp only [check_single_link, hp]; split_ifs <;> rfl
    | timeout => simp [check_single_link, hp]
    | requestError => simp [check_single_link, hp]
    | taskError => simp [check_single_link, hp]
  have hmap : (check_links probe (unique_links raw_links cap)).map (·.url) =
      unique_links raw_links cap := by
    rw [check_links, List.map_map]
    conv_rhs => rw [← List.map_id (unique_links raw_links cap)]
    apply List.map_congr_left
    intro url _
    exact hurl url
  refine ⟨hmap, ?_, ?_⟩
  · rw [check_links, List.length_map, unique_links, List.length_take,
      Nat.min_comm]
  · rw [hmap]
    exact (List.nodup_dedup raw_links).sublist (List.take_sublist _ _)

/-- C8: the link-health score is always an integer in [0, 100], and the
empty outcome set scores exactly 100. -/
theorem C8_score_bounds (results : List CheckResult) :
    calculate_score [] = 100
    ∧ 0 ≤ calculate_score results
    ∧ calculate_score results ≤ 100 := by
  have key : 0 ≤ calculate_score results ∧ calculate_score results ≤ 100 := by
    rw [calculate_score]
    by_cases he : results = []
    · rw [if_pos he]; norm_num
    · rw [if_neg he]
      by_cases hb : broken_count results = 0
      · rw [if_pos hb]; norm_num
      · rw [if_neg hb]
        have hlen : (0 : ℚ) < (results.length : ℚ) := by
          have hnz : results.length ≠ 0 :=
            fun h0 => he (List.length_eq_zero.mp h0)
          exact_mod_cast Nat.pos_of_ne_zero hnz
        have hrnn : (0 : ℚ) ≤ (broken_count results : ℚ) / (results.length : ℚ) :=
          div_nonneg (by positivity) (le_of_lt hlen)
        refine ⟨le_max_left _ _, max_le (by norm_num) ?_⟩
        have hle : (1 - (broken_count results : ℚ) / (results.length : ℚ)) * 100 ≤ 100 := by
          nlinarith
        calc ⌊(1 - (broken_count results : ℚ) / (results.length : ℚ)) * 100⌋
            ≤ ⌊(100 : ℚ)⌋ := Int.floor_le_floor hle
          _ = 100 := by norm_num
  exact ⟨rfl, key.1, key.2⟩

theorem overallLoopS_eq :
    ∀ (l : List (String × ℚ)) (acc : ℚ × ℚ) (s : SEOScorerState),
      overallLoopS l (acc, s) = (l.foldl (overallStep s.results) acc, s) := by
  intro l
  induction l with
  | nil => intro acc s; rfl
  | cons cw rest ih =>
    intro acc s
    cases hd : (dictGet cw.1 s.results).bind (·.score) with
    | some v => simp [overallLoopS, hd, ih, overallStep, List.foldl_cons]
    | none => simp [overallLoopS, hd, ih, overallStep, List.foldl_cons]

theorem calculate_overall_scoreS_eq (s : SEOScorerState) :
    calculate_overall_scoreS s = (calculate_overall_score s.results, s) := by
  rw [calculate_overall_scoreS, overallLoopS_eq, calculate_overall_score]

theorem prioLoopS_eq :
    ∀ (results : Results) (b : Buckets) (s : SEOScorerState),
      prioLoopS results b s = (foldCats results b, s) := by
  intro results
  induction results with
  | nil => intro b s; rfl
  | cons cd rest ih =>
    intro b s
    cases hi : cd.2.issues with
    | none => simp [prioLoopS, foldCats, hi, ih]
    | some l =>
      cases ha : addIssues cd.1 (cd.2.score.getD 100) l b with
      | ok b2 => simp [prioLoopS, foldCats, hi, ha, ih]
      | error e => simp [prioLoopS, foldCats, hi, ha]

theorem get_priority_issuesS_eq (s : SEOScorerState) :
    get_priority_issuesS s = (get_priority_issues s.results, s) := by
  rw [get_priority_issuesS, prioLoopS_eq, get_priority_issues]

theorem recLoopS_eq :
    ∀ (results : Results) (acc : List RecEntry) (s : SEOScorerState),
      recLoopS results acc s = (acc ++ collectRecommendations results, s) := by
  intro results
  induction results with
  | nil => intro acc s; simp [recLoopS, collectRecommendations]
  | cons cd rest ih =>
    intro acc s
    cases hr : cd.2.recommendations with
    | none => simp [recLoopS, collectRecommendations, hr, ih]
    | some recs =>
      simp [recLoopS, collectRecommendations, hr, ih, List.append_assoc]

theorem get_all_recommendationsS_eq (s : SEOScorerState) :
    get_all_recommendationsS s = (get_all_recommendations s.results, s) := by
  rw [get_all_recommendationsS, recLoopS_eq, get_all_recommendations]
  rfl

theorem get_summaryS_eq (s : SEOScorerState) :
    get_summaryS s = (get_summary s.results, s) := by
  rw [get_summaryS, get_summary, get_priority_issuesS_eq]
  cases hp : get_priority_issues s.results with
  | error e => rfl
  | ok pi => simp [calculate_overall_scoreS_eq]

/-- C9: none of the aggregation operations mutates the scorer's results:
run with the state threaded explicitly through every loop iteration,
each of `calculate_overall_score`, `get_priority_issues`,
`get_all_recommendations` and `get_summary` (also on its raising path)
returns the state it received — so every category's score, issues and
recommendations are unchanged — while computing the same output as the
pure reading of the method. -/
theorem C9_no_mutation (s : SEOScorerState) :
    (calculate_overall_scoreS s).2 = s
    ∧ (get_priority_issuesS s).2 = s
    ∧ (get_all_recommendationsS s).2 = s
    ∧ (get_summaryS s).2 = s
    ∧ (calculate_overall_scoreS s).1 = calculate_overall_score s.results
    ∧ (get_priority_issuesS s).1 = get_priority_issues s.results
    ∧ (get_all_recommendationsS s).1 = get_all_recommendations s.results
    ∧ (get_summaryS s).1 = get_summary s.results
    ∧ (∀ c, dictGet c (get_summaryS s).2.results = dictGet c s.results) := by
  rw [calculate_overall_scoreS_eq, get_priority_issuesS_eq,
    get_all_recommendationsS_eq, get_summaryS_eq]
  exact ⟨rfl, rfl, rfl, rfl, rfl, rfl, rfl, rfl, fun c => rfl⟩

/-- C10: a category entry without a `score` key contributes neither
score nor weight to the overall score (removing it changes nothing),
while its issues and recommendations are still processed with the
defaulted score 100: its issues classify by tag alone (low unless
critical or warning), its whole-mapping classification still succeeds
when issues are tagged, and every recommendation entry it contributes
carries score 100. -/
theorem C10_missing_score_skipped (l1 l2 : Results) (c : String)
    (data : AnalyzerResult)
    (hc : ∀ cd ∈ l1 ++ l2, cd.1 ≠ c)
    (hs : data.score = none) :
    (calculate_overall_score (l1 ++ (c, data) :: l2) =
      calculate_overall_score (l1 ++ l2))
    ∧ (∀ p, specBucket p (l1 ++ (c, data) :: l2) =
        specBucket p l1 ++ taggedOf c 100 (data.issues.getD []) p ++
          specBucket p l2)
    ∧ (∀ t, specPriority 100 t =
        if t = "critical" then Priority.high
        else if t = "warning" then Priority.medium
        else Priority.low)
    ∧ ((∀ cd ∈ l1 ++ (c, data) :: l2, ∀ i ∈ cd.2.issues.getD [], i.type.isSome) →
        get_priority_issues (l1 ++ (c, data) :: l2) =
          .ok (bucketsSpec (l1 ++ (c, data) :: l2)))
    ∧ (∀ e ∈ get_all_recommendations (l1 ++ (c, data) :: l2),
        e.category = c → e.score = 100) := by
  refine ⟨?_, ?_, ?_, fun h => get_priority_issues_ok _ h, ?_⟩
  · apply calculate_overall_score_congr
    intro cw _
    by_cases hwc : cw.1 = c
    · have hl1 : dictGet cw.1 l1 = none :=
        dictGet_eq_none fun kv hkv => by
          rw [hwc]; exact hc kv (List.mem_append_left _ hkv)
      have hl2 : dictGet cw.1 l2 = none :=
        dictGet_eq_none fun kv hkv => by
          rw [hwc]; exact hc kv (List.mem_append_right _ hkv)
      rw [dictGet_append_none hl1, dictGet_append_none hl1, dictGet,
        if_pos hwc.symm, hl2]
      simp [hs]
    · rw [dictGet_middle hwc]
  · intro p
    clear hc
    induction l1 with
    | nil =>
      cases hi : data.issues with
      | none => simp [specBucket, hi, hs, taggedOf]
      | some l => simp [specBucket, hi, hs]
    | cons kv rest ih =>
      simp [specBucket, ih, List.append_assoc]
  · intro t
    have h40 : ¬((100 : ℤ) < 40) := by decide
    have h70 : ¬((100 : ℤ) < 70) := by decide
    by_cases h1 : t = "critical"
    · rw [specPriority, if_pos (Or.inl h1), if_pos h1]
    · by_cases h2 : t = "warning"
      · rw [specPriority, if_neg (not_or.mpr ⟨h1, h40⟩), if_pos (Or.inl h2),
          if_neg h1, if_pos h2]
      · rw [specPriority, if_neg (not_or.mpr ⟨h1, h40⟩),
          if_neg (not_or.mpr ⟨h2, h70⟩), if_neg h1, if_neg h2]
  · intro e he hec
    have he2 : e ∈ collectRecommendations (l1 ++ (c, data) :: l2) := by
      have hperm := sortLoop_perm (collectRecommendations (l1 ++ (c, data) :: l2)) []
      have := hperm.mem_iff.mp (by rwa [get_all_recommendations, sortRecs] at he)
      simpa using this
    obtain ⟨cd, hcd, r, hrr, hee⟩ := mem_collectRecommendations.mp he2
    have hcdc : cd.1 = c := by rw [hee] at hec; exact hec
    rcases List.mem_append.mp hcd with hL | hR
    · exact absurd hcdc (hc cd (List.mem_append_left _ hL))
    · rcases List.mem_cons.mp hR with rfl | hl2
      · rw [hee]
        simp [hs]
      · exact absurd hcdc (hc cd (List.mem_append_right _ hl2))

/-- Witness for C10: the hypotheses hold with the scored `title` entry
followed by a score-less `content` entry, and the conclusion follows
there. -/
theorem C10_missing_score_skipped_witness :
    ((∀ cd ∈ exScored ++ ([] : Results), cd.1 ≠ "content")
      ∧ exNoScore.score = none)
    ∧ ((calculate_overall_score (exScored ++ ("content", exNoScore) :: []) =
        calculate_overall_score (exScored ++ []))
      ∧ (∀ p, specBucket p (exScored ++ ("content", exNoScore) :: []) =
          specBucket p exScored ++
            taggedOf "content" 100 (exNoScore.issues.getD []) p ++
            specBucket p [])
      ∧ (∀ t, specPriority 100 t =
          if t = "critical" then Priority.high
          else if t = "warning" then Priority.medium
          else Priority.low)
      ∧ ((∀ cd ∈ exScored ++ ("content", exNoScore) :: [],
            ∀ i ∈ cd.2.issues.getD [], i.type.isSome) →
          get_priority_issues (exScored ++ ("content", exNoScore) :: []) =
            .ok (bucketsSpec (exScored ++ ("content", exNoScore) :: [])))
      ∧ (∀ e ∈ get_all_recommendations (exScored ++ ("content", exNoScore) :: []),
          e.category = "content" → e.score = 100)) :=
  ⟨⟨by decide, by decide⟩,
   C10_missing_score_skipped exScored [] "content" exNoScore (by decide) (by decide)⟩

theorem fdiv_zero_left (b : F) : fdiv (ofInt 0) b = (0, 0) := by
  rw [fdiv, if_pos (by decide : ((ofInt 0 : F)).1 = 0)]

theorem bitLenAux_zero (fuel : ℕ) : bitLenAux fuel 0 = 0 := by
  cases fuel <;> simp [bitLenAux]

theorem two_pow_bitLenAux_le :
    ∀ (fuel n : ℕ), n ≤ fuel → 1 ≤ n → 2 ^ (bitLenAux fuel n - 1) ≤ n := by
  intro fuel
  induction fuel with
  | zero => intro n hn h1; omega
  | succ fuel ih =>
    intro n hn h1
    simp only [bitLenAux]
    rw [if_neg (by omega : ¬ n = 0)]
    by_cases h2 : n / 2 = 0
    · rw [h2, bitLenAux_zero]
      simpa using h1
    · have h3 : 1 ≤ n / 2 := Nat.pos_of_ne_zero h2
      have h4 : n / 2 ≤ fuel := by omega
      have h5 := ih (n / 2) h4 h3
      have hL : 1 ≤ bitLenAux fuel (n / 2) := by
        cases fuel with
        | zero => omega
        | succ f =>
          simp only [bitLenAux]
          rw [if_neg (by omega : ¬ n / 2 = 0)]
          omega
      have heq : bitLenAux fuel (n / 2) + 1 - 1 =
          (bitLenAux fuel (n / 2) - 1) + 1 := by omega
      rw [heq, pow_succ]
      calc 2 ^ (bitLenAux fuel (n / 2) - 1) * 2 ≤ (n / 2) * 2 :=
            Nat.mul_le_mul_right 2 h5
        _ ≤ n := Nat.div_mul_le_self n 2

theorem two_pow_bitLen_pred_le {n : ℕ} (h1 : 1 ≤ n) :
    2 ^ (bitLen n - 1) ≤ n :=
  two_pow_bitLenAux_le n n (le_refl n) h1

theorem normPos_fst_pos (m : ℕ) (e : ℤ) (st : Bool) (h1 : 1 ≤ m) :
    1 ≤ (normPos m e st).1 := by
  rw [normPos, if_neg (by omega : ¬ m = 0)]
  by_cases hk : bitLen m - 1 ≤ 52
  · rw [if_pos hk]
    exact Nat.mul_pos h1 (Nat.pos_pow_of_pos _ (by norm_num))
  · rw [if_neg hk]
    have hq : 2 ^ 52 ≤ m / 2 ^ (bitLen m - 1 - 52) := by
      have hle : 2 ^ (bitLen m - 1) ≤ m := two_pow_bitLen_pred_le h1
      have hdiv : 2 ^ (bitLen m - 1) / 2 ^ (bitLen m - 1 - 52) ≤
          m / 2 ^ (bitLen m - 1 - 52) := Nat.div_le_div_right hle
      rwa [Nat.pow_div (by omega) (by norm_num),
        (by omega : bitLen m - 1 - (bitLen m - 1 - 52) = 52)] at hdiv
    have h252 : (1 : ℕ) ≤ 2 ^ 52 := Nat.one_le_two_pow
    have hq1 : 1 ≤ m / 2 ^ (bitLen m - 1 - 52) := le_trans h252 hq
    have key1 : ∀ (u : Bool) (q : ℕ), 1 ≤ q → 1 ≤ (if u then q + 1 else q) := by
      intro u q hu
      cases u with
      | false => rw [if_neg (by simp)]; exact hu
      | true => rw [if_pos rfl]; omega
    have key2 : ∀ (c : Prop) (inst : Decidable c) (a b : ℤ) (q2 : ℕ), 1 ≤ q2 →
        1 ≤ (@ite _ c inst ((2 ^ 52 : ℕ), a) (q2, b)).1 := by
      intro c inst a b q2 hq2
      split_ifs
      · exact h252
      · exact hq2
    exact key2 _ _ _ _ _ (key1 _ _ hq1)

theorem normF_fst_pos (m e : ℤ) (h : 0 < m) : 0 < (normF m e).1 := by
  rw [normF, if_neg (by omega : ¬ m < 0)]
  have h1 : 1 ≤ m.toNat := by omega
  have h2 := normPos_fst_pos m.toNat e false h1
  show 0 < ((normPos m.toNat e false).1 : ℤ)
  exact_mod_cast h2

theorem fadd_fst_pos {a b : F} (ha : 0 ≤ a.1) (hb : 0 < b.1) :
    0 < (fadd a b).1 := by
  show 0 < (normF (a.1 * 2 ^ (a.2 - min a.2 b.2).toNat +
    b.1 * 2 ^ (b.2 - min a.2 b.2).toNat) (min a.2 b.2)).1
  apply normF_fst_pos
  have h2x : (0 : ℤ) < 2 ^ (a.2 - min a.2 b.2).toNat := by positivity
  have h2y : (0 : ℤ) < 2 ^ (b.2 - min a.2 b.2).toNat := by positivity
  exact add_pos_of_nonneg_of_pos (mul_nonneg ha h2x.le) (mul_pos hb h2y)

theorem foldF_weight_pos (results : Results) :
    ∀ (l : List (String × F)) (acc : F × F),
      (∀ cw ∈ l, 0 < cw.2.1) → 0 < acc.2.1 →
      0 < ((l.foldl (overallStepF results) acc).2).1 := by
  intro l
  induction l with
  | nil => intro acc _ h; exact h
  | cons cw rest ih =>
    intro acc hl hacc
    rw [List.foldl_cons]
    apply ih _ (fun x hx => hl x (List.mem_cons_of_mem _ hx))
    cases hd : (dictGet cw.1 results).bind (·.score) with
    | some v =>
      simp only [overallStepF, hd]
      exact fadd_fst_pos hacc.le (hl cw (List.mem_cons_self _ _))
    | none => simp only [overallStepF, hd]; exact hacc

theorem foldl_overallStepF_filter (results : Results) :
    ∀ (l : List (String × F)) (acc : F × F),
      l.foldl (overallStepF results) acc =
        (l.filter (fun cw => ((dictGet cw.1 results).bind (·.score)).isSome)).foldl
          (overallStepF results) acc := by
  intro l
  induction l with
  | nil => intro acc; rfl
  | cons cw rest ih =>
    intro acc
    cases hd : (dictGet cw.1 results).bind (·.score) with
    | some v =>
      simp only [List.foldl_cons, List.filter_cons, hd, Option.isSome_some,
        if_true, ih]
    | none =>
      simp only [List.foldl_cons, List.filter_cons, hd, Option.isSome_none,
        Bool.false_eq_true, if_false, overallStepF, ih]

theorem foldl_overallStepF_congr {A B : Results} :
    ∀ (l : List (String × F)),
      (∀ cw ∈ l, (dictGet cw.1 A).bind (·.score) = (dictGet cw.1 B).bind (·.score)) →
      ∀ acc, l.foldl (overallStepF A) acc = l.foldl (overallStepF B) acc := by
  intro l
  induction l with
  | nil => intro _ _; rfl
  | cons cw rest ih =>
    intro h acc
    rw [List.foldl_cons, List.foldl_cons]
    have hstep : overallStepF A acc cw = overallStepF B acc cw := by
      rw [overallStepF, overallStepF, h cw (List.mem_cons_self _ _)]
    rw [hstep]
    exact ih (fun x hx => h x (List.mem_cons_of_mem _ hx)) _

theorem calculate_overall_scoreF_congr {A B : Results}
    (h : ∀ cw ∈ WEIGHTSF,
      (dictGet cw.1 A).bind (·.score) = (dictGet cw.1 B).bind (·.score)) :
    calculate_overall_scoreF A = calculate_overall_scoreF B := by
  rw [calculate_overall_scoreF, calculate_overall_scoreF,
    foldl_overallStepF_congr WEIGHTSF h]

/-- Counterexample to C2 as stated: with two working links and one
broken link the code returns 66 — in binary64 exactly as the
interpreter computes it, and equally under the exact-rational reading —
while the spec's clamped round formula returns 67. -/
theorem C2_round_counterexample :
    calculate_scoreF exWWB = 66
    ∧ calculate_score exWWB = 66
    ∧ specRoundScore exWWB = 67
    ∧ calculate_scoreF exWWB ≠ specRoundScore exWWB := by
  have h1 : calculate_scoreF exWWB = 66 := by decide
  have h2 : calculate_score exWWB = 66 := by
    rw [calculate_score, if_neg (by decide : ¬ exWWB = []),
      if_neg (by decide : ¬ broken_count exWWB = 0),
      (by decide : broken_count exWWB = 1), (by decide : exWWB.length = 3)]
    norm_num
  have h3 : specRoundScore exWWB = 67 := by
    rw [specRoundScore, (by decide : broken_count exWWB = 1),
      (by decide : exWWB.length = 3)]
    norm_num [pythonRound]
  exact ⟨h1, h2, h3, by rw [h1, h3]; decide⟩

/-- C2 (amended): for every non-empty probe outcome set the link-health
score is `max(0, int((1 - brokenRatio) * 100))` with the arithmetic in
binary64 — the truncation of the float product, not its rounding. The
spec's scenario of 3 working, 1 broken and 1 unreachable outcomes still
scores exactly 60; with 1 working and 4 broken outcomes the float
product 19.999999999999996 truncates to 19, one below the exact
`⌊(1 - 4/5) * 100⌋ = 20`. -/
theorem C2_score_truncation (results : List CheckResult)
    (h : results ≠ []) :
    calculate_scoreF results =
      max 0 (ftrunc (fmul (fsub (ofInt 1)
        (fdiv (ofInt (broken_count results)) (ofInt results.length))) (ofInt 100)))
    ∧ calculate_scoreF ex5 = 60
    ∧ calculate_scoreF ex5b = 19
    ∧ ⌊(1 - (broken_count ex5b : ℚ) / (ex5b.length : ℚ)) * 100⌋ = 20 := by
  refine ⟨?_, by decide, by decide, ?_⟩
  · rw [calculate_scoreF, if_neg h]
    by_cases hb : broken_count results = 0
    · rw [if_pos hb, hb]
      rw [Nat.cast_zero, fdiv_zero_left]
      decide
    · rw [if_neg hb]
  · rw [(by decide : broken_count ex5b = 4), (by decide : ex5b.length = 5)]
    norm_num

/-- Witness for C2 (amended): the non-emptiness hypothesis holds at the
spec's five-outcome scenario and the conclusion follows there. -/
theorem C2_score_truncation_witness :
    ex5 ≠ []
    ∧ (calculate_scoreF ex5 =
        max 0 (ftrunc (fmul (fsub (ofInt 1)
          (fdiv (ofInt (broken_count ex5)) (ofInt ex5.length))) (ofInt 100)))
      ∧ calculate_scoreF ex5 = 60
      ∧ calculate_scoreF ex5b = 19
      ∧ ⌊(1 - (broken_count ex5b : ℚ) / (ex5b.length : ℚ)) * 100⌋ = 20) :=
  ⟨by decide, C2_score_truncation ex5 (by decide)⟩

/-- Counterexample to C3 as stated: at `{title: 0, headings: 42}` the
spec's exact formula rounds the weighted mean 546/28 = 19.5 to 20, but
the program's float accumulation yields 19.499999999999996, which
Python's round takes to 19. -/
theorem C3_round_counterexample :
    calculate_overall_scoreF exTH = 19
    ∧ specWeightedSum exTH = 546 / 100
    ∧ specWeightTotal exTH = 28 / 100
    ∧ pythonRound (specWeightedSum exTH / specWeightTotal exTH) = 20
    ∧ calculate_overall_scoreF exTH ≠
        pythonRound (specWeightedSum exTH / specWeightTotal exTH) := by
  have h1 : calculate_overall_scoreF exTH = 19 := by decide
  have h2 : specWeightedSum exTH = 546 / 100 := by
    rw [specWeightedSum, WEIGHTS]
    simp only [List.map_cons, List.map_nil, List.sum_cons, List.sum_nil,
      (by decide : isPresent exTH "title" = true),
      (by decide : isPresent exTH "meta_description" = false),
      (by decide : isPresent exTH "url_structure" = false),
      (by decide : isPresent exTH "headings" = true),
      (by decide : isPresent exTH "content" = false),
      (by decide : isPresent exTH "images" = false),
      (by decide : isPresent exTH "links" = false),
      (by decide : isPresent exTH "performance" = false),
      (by decide : (dictGet "title" exTH).bind (·.score) = some 0),
      (by decide : (dictGet "headings" exTH).bind (·.score) = some 42)]
    norm_num
  have h3 : specWeightTotal exTH = 28 / 100 := by
    rw [specWeightTotal, WEIGHTS]
    simp only [List.map_cons, List.map_nil, List.sum_cons, List.sum_nil,
      (by decide : isPresent exTH "title" = true),
      (by decide : isPresent exTH "meta_description" = false),
      (by decide : isPresent exTH "url_structure" = false),
      (by decide : isPresent exTH "headings" = true),
      (by decide : isPresent exTH "content" = false),
      (by decide : isPresent exTH "images" = false),
      (by decide : isPresent exTH "links" = false),
      (by decide : isPresent exTH "performance" = false)]
    norm_num
  have h4 : pythonRound ((546 / 100 : ℚ) / (28 / 100)) = 20 := by
    norm_num [pythonRound]
  refine ⟨h1, h2, h3, ?_, ?_⟩
  · rw [h2, h3]; exact h4
  · rw [h1, h2, h3, h4]; decide

/-- C3 (corrected): the overall score is Python's round of the
binary64-accumulated weighted mean over the weighted categories present
in the mapping (in weight-table order); it is 0 when no weighted
category is present; an entry with an unrecognized category name
contributes nothing and changes nothing, with no error raised (the
operation is total); on the spec's `{title: 80, content: 60}` scenario
it yields 69; and the exact-rational reading of the same loop equals
the spec's `round(Σ score_i * w_i / Σ w_i)` formula, so float rounding
is the only deviation from it. -/
theorem C3_overall_round_float (results : Results)
    (h : ∀ cd ∈ results, cd.2.score.isSome) :
    (calculate_overall_scoreF results =
      if presentWeightsF results = [] then 0
      else
        pyRoundF (fdiv
          ((presentWeightsF results).foldl (overallStepF results)
            (ofInt 0, ofInt 0)).1
          ((presentWeightsF results).foldl (overallStepF results)
            (ofInt 0, ofInt 0)).2))
    ∧ (∀ (c : String) (data : AnalyzerResult), c ∉ WEIGHTSF.map Prod.fst →
        calculate_overall_scoreF (results ++ [(c, data)]) =
          calculate_overall_scoreF results)
    ∧ calculate_overall_scoreF [] = 0
    ∧ calculate_overall_scoreF exTC = 69
    ∧ (calculate_overall_score results =
        if specWeightTotal results = 0 then 0
        else pythonRound (specWeightedSum results / specWeightTotal results)) := by
  refine ⟨?_, ?_, by decide, by decide, ?_⟩
  · simp only [calculate_overall_scoreF, foldl_overallStepF_filter results WEIGHTSF]
    rw [← presentWeightsF]
    by_cases hpw : presentWeightsF results = []
    · rw [hpw]
      simp only [List.foldl_nil, if_pos rfl]
      rw [if_pos (by decide : (((ofInt 0 : F), (ofInt 0 : F)).2).1 = 0)]
      simp
    · rw [if_neg hpw]
      have hpos : 0 < (((presentWeightsF results).foldl (overallStepF results)
          (ofInt 0, ofInt 0)).2).1 := by
        obtain ⟨cw, rest, hcons⟩ := List.exists_cons_of_ne_nil hpw
        rw [hcons, List.foldl_cons]
        have hmem : cw ∈ presentWeightsF results := by
          rw [hcons]; exact List.mem_cons_self _ _
        have hcwW : cw ∈ WEIGHTSF := (List.mem_filter.mp hmem).1
        have hcwP : ((dictGet cw.1 results).bind (·.score)).isSome := by
          simpa using (List.mem_filter.mp hmem).2
        obtain ⟨v, hv⟩ := Option.isSome_iff_exists.mp hcwP
        have hwpos : ∀ x ∈ WEIGHTSF, 0 < x.2.1 := by decide
        have hrestpos : ∀ x ∈ rest, 0 < x.2.1 := by
          intro x hx
          apply hwpos
          have hxp : x ∈ presentWeightsF results := by
            rw [hcons]; exact List.mem_cons_of_mem _ hx
          exact (List.mem_filter.mp hxp).1
        apply foldF_weight_pos results rest _ hrestpos
        simp only [overallStepF, hv]
        exact fadd_fst_pos (by decide) (hwpos cw hcwW)
      rw [if_neg (by omega)]
  · intro c data hc
    apply calculate_overall_scoreF_congr
    intro cw hcw
    have hne : cw.1 ≠ c := fun he => hc (he ▸ List.mem_map_of_mem Prod.fst hcw)
    cases h1 : dictGet cw.1 results with
    | some v => rw [dictGet_append_some h1]
    | none =>
      rw [dictGet_append_none h1, dictGet, if_neg (fun hh => hne hh.symm)]
      rfl
  · rw [calculate_overall_score]
    simp only [foldl_overallStep_eq results WEIGHTS 0 0, zero_add,
      specWeightedSum_eq h, specWeightTotal_eq h]

/-- Witness for C3 (corrected): the all-scores-present hypothesis holds
at the spec's concrete two-category mapping and the conclusion follows
there. -/
theorem C3_overall_round_float_witness :
    (∀ cd ∈ exTC, cd.2.score.isSome)
    ∧ ((calculate_overall_scoreF exTC =
        if presentWeightsF exTC = [] then 0
        else
          pyRoundF (fdiv
            ((presentWeightsF exTC).foldl (overallStepF exTC)
              (ofInt 0, ofInt 0)).1
            ((presentWeightsF exTC).foldl (overallStepF exTC)
              (ofInt 0, ofInt 0)).2))
      ∧ (∀ (c : String) (data : AnalyzerResult), c ∉ WEIGHTSF.map Prod.fst →
          calculate_overall_scoreF (exTC ++ [(c, data)]) =
            calculate_overall_scoreF exTC)
      ∧ calculate_overall_scoreF [] = 0
      ∧ calculate_overall_scoreF exTC = 69
      ∧ (calculate_overall_score exTC =
          if specWeightTotal exTC = 0 then 0
          else pythonRound (specWeightedSum exTC / specWeightTotal exTC))) :=
  ⟨by decide, C3_overall_round_float exTC (by decide)⟩
